import Mathlib

/-!
Verification of `src/Secret_message/secret_message.py`.

The core function of the repository is `decode_secret_message_from_text`,
which parses coordinate lines `"<char> <x> <y>"` from a text blob and
renders a 2D grid of tokens.  We shallowly embed that function together
with the Python primitives it relies on (`str.splitlines`, `str.strip`,
`str.split`, `int(...)`, list indexing/assignment with Python's
negative-index semantics).  Fallible steps (Python's `IndexError` on
`grid[y][x] = char`) are modelled with `Except String`.
-/

/-- Characters for which Python's `str.isspace()` returns true (the class
used by `str.strip()` and no-argument `str.split()`); unicode space
codepoints included. -/
def isPySpace (c : Char) : Bool :=
  c.toNat ∈ [9, 10, 11, 12, 13, 28, 29, 30, 31, 32, 133, 160, 0x1680,
    0x2000, 0x2001, 0x2002, 0x2003, 0x2004, 0x2005, 0x2006, 0x2007,
    0x2008, 0x2009, 0x200a, 0x2028, 0x2029, 0x202f, 0x205f, 0x3000]

/-- Line boundary characters of Python's `str.splitlines()` (besides the
two-character sequence `"\r\n"`, handled separately). -/
def isPyLineBoundary (c : Char) : Bool :=
  c.toNat ∈ [10, 11, 12, 13, 28, 29, 30, 133, 0x2028, 0x2029]

/-- Worker for `pySplitlines`: `acc` holds the current line's characters in
reverse.  A terminator always emits the accumulated line (possibly empty);
the end of input emits the accumulated line only when it is nonempty, so
that `"a\n".splitlines() == ["a"]` and `"".splitlines() == []`. -/
def pySplitlinesAux : List Char → List Char → List String
  | [], acc => if acc.isEmpty then [] else [String.mk acc.reverse]
  | '\r' :: '\n' :: rest, acc => String.mk acc.reverse :: pySplitlinesAux rest []
  | c :: rest, acc =>
    if isPyLineBoundary c then String.mk acc.reverse :: pySplitlinesAux rest []
    else pySplitlinesAux rest (c :: acc)

/-- Python `text.splitlines()`. -/
def pySplitlines (s : String) : List String :=
  pySplitlinesAux s.data []

/-- Python `s.strip()`: drop `isspace` characters from both ends. -/
def pyStrip (s : String) : String :=
  String.mk (((s.data.dropWhile isPySpace).reverse.dropWhile isPySpace).reverse)

/-- Worker for `pySplit`: split on runs of whitespace, producing no empty
tokens; `acc` holds the current token's characters in reverse. -/
def pySplitAux : List Char → List Char → List String
  | [], acc => if acc.isEmpty then [] else [String.mk acc.reverse]
  | c :: rest, acc =>
    if isPySpace c then
      if acc.isEmpty then pySplitAux rest []
      else String.mk acc.reverse :: pySplitAux rest []
    else pySplitAux rest (c :: acc)

/-- Python no-argument `line.split()`. -/
def pySplit (s : String) : List String :=
  pySplitAux s.data []

/-- Worker for `pyInt`: a nonempty ASCII digit string already started with
value `acc`, where a single underscore may stand between two digits
(Python 3 literal grouping, e.g. `int("1_0") == 10`). -/
def pyDigitsAux : List Char → Nat → Option Nat
  | [], acc => some acc
  | '_' :: c :: rest, acc =>
    if c.isDigit then pyDigitsAux rest (acc * 10 + (c.toNat - 48)) else none
  | ['_'], _ => none
  | c :: rest, acc =>
    if c.isDigit then pyDigitsAux rest (acc * 10 + (c.toNat - 48)) else none

/-- Magnitude part of Python `int(...)`: one leading digit then
digits/underscores per `pyDigitsAux`. -/
def pyDigits : List Char → Option Nat
  | c :: rest => if c.isDigit then pyDigitsAux rest (c.toNat - 48) else none
  | [] => none

/-- Python `int(s)` for base 10: surrounding whitespace is allowed, then an
optional sign and an ASCII digit string with optional single underscores
between digits.  (Non-ASCII decimal digits, which Python also accepts, do
not occur in this repository's inputs and are not modelled.)  `none`
models `ValueError`. -/
def pyInt (s : String) : Option Int :=
  match (pyStrip s).data with
  | '-' :: rest => (pyDigits rest).map (fun n => -(n : Int))
  | '+' :: rest => (pyDigits rest).map (fun n => (n : Int))
  | cs => (pyDigits cs).map (fun n => (n : Int))

/-- One parsed coordinate entry `(char, x, y)`; the code keeps the raw
first token as `char`, whatever its length. -/
structure Entry where
  char : String
  x : Int
  y : Int
deriving DecidableEq, Repr

/-- One iteration of the parsing loop: `parts = line.split()`; skip unless
exactly 3 tokens; skip when `int(parts[1])` or `int(parts[2])` raises
`ValueError`; otherwise keep `(parts[0], x, y)`. -/
def parseLine (line : String) : Option Entry :=
  match pySplit line with
  | [c, xs, ys] =>
    match pyInt xs, pyInt ys with
    | some x, some y => some ⟨c, x, y⟩
    | _, _ => none
  | _ => none

/-- `coords`: strip each line, drop empties, keep the successfully parsed
triples in order (lines 46-59 of the source). -/
def coordsOfLines (ls : List String) : List Entry :=
  ((ls.map pyStrip).filter (fun l => l ≠ "")).filterMap parseLine

/-- A grid is a list of rows of cell strings. -/
abbrev Grid := List (List String)

/-- Python `max` over a nonempty list seeded with its head; the `[]` case
is unreachable in the embedded code (guarded by the `coords` emptiness
check). -/
def maxX : List Entry → Int
  | [] => 0
  | e :: rest => rest.foldl (fun m f => max m f.x) e.x

/-- Python `max` over the `y` components, as `maxX`. -/
def maxY : List Entry → Int
  | [] => 0
  | e :: rest => rest.foldl (fun m f => max m f.y) e.y

/-- Python list-index resolution for a list of length `n`: a negative
index counts from the end; out of range is an error (`none`). -/
def pyIdx (n : Nat) (i : Int) : Option Nat :=
  let j := if i < 0 then i + n else i
  if 0 ≤ j ∧ j < (n : Int) then some j.toNat else none

/-- Python `grid[y][x] = char`: resolve `y` against the outer list (an
`IndexError` on failure), fetch the row, resolve `x` against it (an
`IndexError` on failure), and write the cell. -/
def setCell (g : Grid) (y x : Int) (c : String) : Except String Grid :=
  match pyIdx g.length y with
  | none => .error "IndexError: list index out of range"
  | some j =>
    match pyIdx (g.getD j []).length x with
    | none => .error "IndexError: list assignment index out of range"
    | some i => .ok (g.set j ((g.getD j []).set i c))

/-- The write loop `for char, x, y in coords: grid[y][x] = char`; a raised
`IndexError` aborts the loop (and the function). -/
def buildFold (g : Grid) : List Entry → Except String Grid
  | [] => .ok g
  | e :: rest =>
    match setCell g e.y e.x e.char with
    | .error msg => .error msg
    | .ok g' => buildFold g' rest

/-- The initial grid `[[" " for _ in range(max_x+1)] for _ in range(max_y+1)]`;
Python's `range` of a non-positive bound is empty, hence `Int.toNat`. -/
def initGrid (mx my : Int) : Grid :=
  List.replicate (my + 1).toNat (List.replicate (mx + 1).toNat " ")

/-- `"\n".join("".join(row) for row in grid)`. -/
def joinGrid (g : Grid) : String :=
  String.intercalate "\n" (g.map (fun row => String.join row))

/-- The body of `decode_secret_message_from_text` from the line list
onwards: filter and parse, return `""` when nothing parsed, otherwise
build and render the grid. -/
def renderLines (ls : List String) : Except String String :=
  match coordsOfLines ls with
  | [] => .ok ""
  | c :: rest =>
    match buildFold (initGrid (maxX (c :: rest)) (maxY (c :: rest))) (c :: rest) with
    | .error msg => .error msg
    | .ok g => .ok (joinGrid g)

/-- `decode_secret_message_from_text(text)` (lines 40-71 of the source).
`.ok s` models a normal return of `s`; `.error msg` models a raised
`IndexError`. -/
def decode_secret_message_from_text (text : String) : Except String String :=
  renderLines (pySplitlines text)

/-- The offline sample `_SAMPLE` from the source (with its trailing
newline). -/
def _SAMPLE : String :=
  "H 0 0\nE 1 0\nL 2 0\nL 3 0\nO 4 0\nW 0 1\nO 1 1\nR 2 1\nL 3 1\nD 4 1\n"

/-- `_SAMPLE_EXPECT` from the source. -/
def _SAMPLE_EXPECT : String := "HELLO\nWORLD"

/-- Equality of `Except` results is decidable componentwise; used to settle
concrete renders by `decide`. -/
instance {ε α : Type} [DecidableEq ε] [DecidableEq α] :
    DecidableEq (Except ε α) := fun a b =>
  match a, b with
  | .ok x, .ok y =>
    if h : x = y then .isTrue (by rw [h]) else .isFalse (by simp [h])
  | .error x, .error y =>
    if h : x = y then .isTrue (by rw [h]) else .isFalse (by simp [h])
  | .ok _, .error _ => .isFalse (by simp)
  | .error _, .ok _ => .isFalse (by simp)

/-- Cell lookup used to state grid properties: `getCell g y x` is the cell
at row `y`, column `x`, or `none` out of range. -/
def getCell (g : Grid) (y x : Nat) : Option String :=
  match g[y]? with
  | none => none
  | some row => row[x]?

/-- The last entry of `cs` (in input order) whose coordinates are exactly
`(x, y)`, if any: the winner under last-write-wins. -/
def lastWriteAt (cs : List Entry) (x y : Int) : Option Entry :=
  cs.reverse.find? (fun e => decide (e.x = x ∧ e.y = y))

/-! ### Facts about Python `max` (seeded left fold of `max`) -/

theorem init_le_foldl_max (l : List Int) (a : Int) :
    a ≤ l.foldl max a := by
  induction l generalizing a with
  | nil => exact le_refl a
  | cons x t ih => exact le_trans (le_max_left a x) (ih (max a x))

theorem le_foldl_max_of_mem {l : List Int} {b : Int} (hb : b ∈ l)
    (a : Int) : b ≤ l.foldl max a := by
  induction l generalizing a with
  | nil => cases hb
  | cons x t ih =>
    rcases List.mem_cons.mp hb with rfl | hbt
    · exact le_trans (le_max_right a b) (init_le_foldl_max t (max a b))
    · exact ih hbt (max a x)

theorem foldl_max_eq_or_mem (l : List Int) (a : Int) :
    l.foldl max a = a ∨ l.foldl max a ∈ l := by
  induction l generalizing a with
  | nil => exact Or.inl rfl
  | cons x t ih =>
    rcases ih (max a x) with h | h
    · rcases max_choice a x with hx | hx
      · exact Or.inl (by rw [List.foldl_cons, h, hx])
      · exact Or.inr (by rw [List.foldl_cons, h, hx]; exact List.mem_cons_self x t)
    · exact Or.inr (List.mem_cons_of_mem x h)

/-- `maxX` over a nonempty entry list is attained by some entry and bounds
every entry's `x`. -/
theorem maxX_spec (e : Entry) (rest : List Entry) :
    (maxX (e :: rest)) ∈ (e :: rest).map Entry.x ∧
      ∀ v ∈ (e :: rest).map Entry.x, v ≤ maxX (e :: rest) := by
  have hfold : maxX (e :: rest) = (rest.map Entry.x).foldl max e.x := by
    unfold maxX; rw [List.foldl_map]
  constructor
  · rcases foldl_max_eq_or_mem (rest.map Entry.x) e.x with h | h
    · rw [hfold, h]; exact List.mem_cons_self _ _
    · rw [hfold]; exact List.mem_cons_of_mem _ (by rw [← hfold] at h ⊢; exact hfold ▸ h)
  · intro v hv
    rcases List.mem_cons.mp hv with rfl | hvt
    · rw [hfold]; exact init_le_foldl_max _ _
    · rw [hfold]; exact le_foldl_max_of_mem hvt _


/-- `maxY` over a nonempty entry list is attained by some entry and bounds
every entry's `y`. -/
theorem maxY_spec (e : Entry) (rest : List Entry) :
    (maxY (e :: rest)) ∈ (e :: rest).map Entry.y ∧
      ∀ v ∈ (e :: rest).map Entry.y, v ≤ maxY (e :: rest) := by
  have hfold : maxY (e :: rest) = (rest.map Entry.y).foldl max e.y := by
    unfold maxY; rw [List.foldl_map]
  constructor
  · rcases foldl_max_eq_or_mem (rest.map Entry.y) e.y with h | h
    · rw [hfold, h]; exact List.mem_cons_self _ _
    · rw [hfold]; exact List.mem_cons_of_mem _ h
  · intro v hv
    rcases List.mem_cons.mp hv with rfl | hvt
    · rw [hfold]; exact init_le_foldl_max _ _
    · rw [hfold]; exact le_foldl_max_of_mem hvt _

/-- Every entry's `x` is bounded by `maxX`. -/
theorem le_maxX {cs : List Entry} {e : Entry} (he : e ∈ cs) : e.x ≤ maxX cs := by
  match cs with
  | [] => cases he
  | c :: rest => exact (maxX_spec c rest).2 e.x (List.mem_map_of_mem Entry.x he)

/-- Every entry's `y` is bounded by `maxY`. -/
theorem le_maxY {cs : List Entry} {e : Entry} (he : e ∈ cs) : e.y ≤ maxY cs := by
  match cs with
  | [] => cases he
  | c :: rest => exact (maxY_spec c rest).2 e.y (List.mem_map_of_mem Entry.y he)

/-- `maxX` of a nonempty list is one of its entries' `x`. -/
theorem maxX_mem {cs : List Entry} (hne : cs ≠ []) : ∃ e ∈ cs, maxX cs = e.x := by
  match cs with
  | [] => exact absurd rfl hne
  | c :: rest =>
    obtain ⟨e, he, hx⟩ := List.mem_map.mp (maxX_spec c rest).1
    exact ⟨e, he, hx.symm⟩

/-- `maxY` of a nonempty list is one of its entries' `y`. -/
theorem maxY_mem {cs : List Entry} (hne : cs ≠ []) : ∃ e ∈ cs, maxY cs = e.y := by
  match cs with
  | [] => exact absurd rfl hne
  | c :: rest =>
    obtain ⟨e, he, hy⟩ := List.mem_map.mp (maxY_spec c rest).1
    exact ⟨e, he, hy.symm⟩

/-- `maxX` is invariant under permutation of a nonempty entry list. -/
theorem maxX_perm {cs₁ cs₂ : List Entry} (h : cs₁.Perm cs₂) (hne : cs₁ ≠ []) :
    maxX cs₁ = maxX cs₂ := by
  have hne₂ : cs₂ ≠ [] := by
    intro hnil; exact hne (List.Perm.eq_nil (hnil ▸ h))
  obtain ⟨e₁, he₁, hx₁⟩ := maxX_mem hne
  obtain ⟨e₂, he₂, hx₂⟩ := maxX_mem hne₂
  apply le_antisymm
  · rw [hx₁]; exact le_maxX (h.mem_iff.mp he₁)
  · rw [hx₂]; exact le_maxX (h.mem_iff.mpr he₂)

/-- `maxY` is invariant under permutation of a nonempty entry list. -/
theorem maxY_perm {cs₁ cs₂ : List Entry} (h : cs₁.Perm cs₂) (hne : cs₁ ≠ []) :
    maxY cs₁ = maxY cs₂ := by
  have hne₂ : cs₂ ≠ [] := by
    intro hnil; exact hne (List.Perm.eq_nil (hnil ▸ h))
  obtain ⟨e₁, he₁, hy₁⟩ := maxY_mem hne
  obtain ⟨e₂, he₂, hy₂⟩ := maxY_mem hne₂
  apply le_antisymm
  · rw [hy₁]; exact le_maxY (h.mem_iff.mp he₁)
  · rw [hy₂]; exact le_maxY (h.mem_iff.mpr he₂)

/-! ### The write loop -/

/-- Python index resolution succeeds directly on an in-range non-negative
index. -/
theorem pyIdx_of_nonneg {n : Nat} {i : Int} (h0 : 0 ≤ i) (hn : i < (n : Int)) :
    pyIdx n i = some i.toNat := by
  have hneg : (if i < 0 then i + (n : Int) else i) = i := if_neg (not_lt.mpr h0)
  simp only [pyIdx, hneg]
  exact if_pos ⟨h0, hn⟩

/-- Splitting the winner search at the head of the entry list. -/
theorem lastWriteAt_cons (e : Entry) (cs : List Entry) (x y : Int) :
    lastWriteAt (e :: cs) x y =
      (lastWriteAt cs x y).or
        ([e].find? (fun f => decide (f.x = x ∧ f.y = y))) := by
  unfold lastWriteAt
  rw [List.reverse_cons, List.find?_append]

/-- Main invariant of the write loop: when every entry's coordinates are
non-negative and within the grid's dimensions, the loop succeeds, keeps
the dimensions, and leaves in each cell the character of the last entry
written there (or the cell's previous content when no entry addresses
it). -/
theorem buildFold_spec (cs : List Entry) :
    ∀ (g : Grid) (r c : Nat),
    g.length = r →
    (∀ row ∈ g, row.length = c) →
    (∀ e ∈ cs, 0 ≤ e.x ∧ e.x < (c : Int) ∧ 0 ≤ e.y ∧ e.y < (r : Int)) →
    ∃ g', buildFold g cs = .ok g' ∧ g'.length = r ∧
      (∀ row ∈ g', row.length = c) ∧
      (∀ y x : Nat, getCell g' y x =
        match lastWriteAt cs (x : Int) (y : Int) with
        | some e => some e.char
        | none => getCell g y x) := by
  induction cs with
  | nil =>
    intro g r c hr hc _
    refine ⟨g, rfl, hr, hc, fun y x => ?_⟩
    simp [lastWriteAt]
  | cons e cs ih =>
    intro g r c hr hc hin
    obtain ⟨hex0, hexc, hey0, heyr⟩ := hin e (List.mem_cons_self _ _)
    have hjy : e.y.toNat < g.length := by omega
    have hrow : g.getD e.y.toNat [] = g.get ⟨e.y.toNat, hjy⟩ := by
      rw [List.getD_eq_getElem?_getD, List.getElem?_eq_getElem hjy]
      rfl
    have hrowlen : (g.getD e.y.toNat []).length = c := by
      rw [hrow]
      exact hc _ (List.get_mem g _ hjy)
    have hset : setCell g e.y e.x e.char =
        .ok (g.set e.y.toNat ((g.getD e.y.toNat []).set e.x.toNat e.char)) := by
      have h1 : pyIdx g.length e.y = some e.y.toNat := by
        rw [hr]; exact pyIdx_of_nonneg hey0 heyr
      have h2 : pyIdx (g.getD e.y.toNat []).length e.x = some e.x.toNat := by
        rw [hrowlen]; exact pyIdx_of_nonneg hex0 hexc
      simp only [setCell, h1, h2]
    have hg1len : (g.set e.y.toNat ((g.getD e.y.toNat []).set e.x.toNat e.char)).length = r := by
      rw [List.length_set, hr]
    have hg1rows : ∀ row ∈ g.set e.y.toNat ((g.getD e.y.toNat []).set e.x.toNat e.char),
        row.length = c := by
      intro row hmem
      rcases List.mem_or_eq_of_mem_set hmem with h | h
      · exact hc _ h
      · rw [h, List.length_set]; exact hrowlen
    obtain ⟨g', hfold, hlen', hrows', hcells'⟩ :=
      ih _ r c hg1len hg1rows (fun f hf => hin f (List.mem_cons_of_mem _ hf))
    refine ⟨g', ?_, hlen', hrows', ?_⟩
    · simp only [buildFold, hset]
      exact hfold
    · intro y x
      rw [hcells' y x]
      rcases hlw : lastWriteAt cs (x : Int) (y : Int) with _ | f
      · simp only [lastWriteAt_cons, hlw, Option.none_or]
        by_cases hpe : e.x = (x : Int) ∧ e.y = (y : Int)
        · have hb : (decide (e.x = (x : Int) ∧ e.y = (y : Int))) = true := by
            simpa using hpe
          simp only [List.find?, hb]
          have hyy : e.y.toNat = y := by omega
          have hxx : e.x.toNat = x := by omega
          have hgy : (g.set e.y.toNat ((g.getD e.y.toNat []).set e.x.toNat e.char))[y]? =
              some ((g.getD e.y.toNat []).set e.x.toNat e.char) := by
            rw [← hyy]
            exact List.getElem?_set_eq hjy
          have hgx : (((g.getD e.y.toNat []).set e.x.toNat e.char))[x]? = some e.char := by
            rw [← hxx]
            apply List.getElem?_set_eq
            rw [hrowlen]
            omega
          simp only [getCell, hgy, hgx]
        · have hb : (decide (e.x = (x : Int) ∧ e.y = (y : Int))) = false := by
            simpa using hpe
          simp only [List.find?, hb]
          by_cases hy : y = e.y.toNat
          · have heyy : e.y = (y : Int) := by omega
            have hxne : e.x.toNat ≠ x := by
              intro hxe
              exact hpe ⟨by omega, heyy⟩
            have hgy : (g.set e.y.toNat ((g.getD e.y.toNat []).set e.x.toNat e.char))[y]? =
                some ((g.getD e.y.toNat []).set e.x.toNat e.char) := by
              rw [hy]
              exact List.getElem?_set_eq hjy
            have hgy0 : g[y]? = some (g.getD e.y.toNat []) := by
              rw [hy, List.getElem?_eq_getElem hjy, hrow]
              rfl
            have hgx : (((g.getD e.y.toNat []).set e.x.toNat e.char))[x]? =
                (g.getD e.y.toNat [])[x]? := List.getElem?_set_ne hxne
            simp only [getCell, hgy, hgy0, hgx]
          · have hgy : (g.set e.y.toNat ((g.getD e.y.toNat []).set e.x.toNat e.char))[y]? =
                g[y]? := List.getElem?_set_ne (fun h => hy h.symm)
            simp only [getCell, hgy]
      · simp only [lastWriteAt_cons, hlw, Option.or]

/-- Cells of the freshly constructed grid: a single space inside the
bounds, nothing outside. -/
theorem getCell_initGrid (mx my : Int) (y x : Nat) :
    getCell (initGrid mx my) y x =
      if y < (my + 1).toNat ∧ x < (mx + 1).toNat then some " " else none := by
  simp only [getCell, initGrid, List.getElem?_replicate]
  by_cases hy : y < (my + 1).toNat <;> by_cases hx : x < (mx + 1).toNat <;>
    simp [hy, hx] <;> omega

/-- Rendering an input whose parsed entries are all non-negative: the
grid is built without error, has `max_y + 1` rows of `max_x + 1` cells,
each cell holding the last entry written there or the default single
space, and the returned string is the joined grid. -/
theorem renderLines_spec (ls : List String) (cs : List Entry)
    (hcs : coordsOfLines ls = cs) (hne : cs ≠ [])
    (hnn : ∀ e ∈ cs, 0 ≤ e.x ∧ 0 ≤ e.y) :
    ∃ g, buildFold (initGrid (maxX cs) (maxY cs)) cs = .ok g ∧
      renderLines ls = .ok (joinGrid g) ∧
      ((g.length : Int) = maxY cs + 1) ∧
      (∀ row ∈ g, ((row.length : Int) = maxX cs + 1)) ∧
      (∀ y x : Nat, getCell g y x =
        match lastWriteAt cs (x : Int) (y : Int) with
        | some e => some e.char
        | none =>
          if y < (maxY cs + 1).toNat ∧ x < (maxX cs + 1).toNat then some " "
          else none) := by
  have h0x : 0 ≤ maxX cs := by
    obtain ⟨e, he, hx⟩ := maxX_mem hne
    rw [hx]; exact (hnn e he).1
  have h0y : 0 ≤ maxY cs := by
    obtain ⟨e, he, hy⟩ := maxY_mem hne
    rw [hy]; exact (hnn e he).2
  have hccast : (((maxX cs + 1).toNat : Nat) : Int) = maxX cs + 1 :=
    Int.toNat_of_nonneg (by omega)
  have hrcast : (((maxY cs + 1).toNat : Nat) : Int) = maxY cs + 1 :=
    Int.toNat_of_nonneg (by omega)
  have hlen0 : (initGrid (maxX cs) (maxY cs)).length = (maxY cs + 1).toNat :=
    List.length_replicate _ _
  have hrows0 : ∀ row ∈ initGrid (maxX cs) (maxY cs),
      row.length = (maxX cs + 1).toNat := by
    intro row hmem
    rw [(List.mem_replicate.mp hmem).2]
    exact List.length_replicate _ _
  have hrange : ∀ e ∈ cs, 0 ≤ e.x ∧ e.x < (((maxX cs + 1).toNat : Nat) : Int) ∧
      0 ≤ e.y ∧ e.y < (((maxY cs + 1).toNat : Nat) : Int) := by
    intro e he
    have hx := le_maxX he
    have hy := le_maxY he
    refine ⟨(hnn e he).1, ?_, (hnn e he).2, ?_⟩
    · rw [hccast]; omega
    · rw [hrcast]; omega
  obtain ⟨g, hfold, hglen, hgrows, hcells⟩ :=
    buildFold_spec cs (initGrid (maxX cs) (maxY cs)) _ _ hlen0 hrows0 hrange
  obtain ⟨c0, rest, rfl⟩ : ∃ c0 rest, cs = c0 :: rest := by
    cases cs with
    | nil => exact absurd rfl hne
    | cons c0 rest => exact ⟨c0, rest, rfl⟩
  refine ⟨g, hfold, ?_, ?_, ?_, ?_⟩
  · simp only [renderLines, hcs, hfold]
  · rw [hglen]; exact hrcast
  · intro row hrow; rw [hgrows row hrow]; exact hccast
  · intro y x
    rw [hcells y x, getCell_initGrid]

/-! ### `split()` ignores surrounding whitespace -/

/-- Splitting a pure-whitespace tail yields at most the pending token. -/
theorem pySplitAux_all_spaces (ws : List Char) (h : ∀ c ∈ ws, isPySpace c) :
    ∀ acc, pySplitAux ws acc =
      if acc.isEmpty then [] else [String.mk acc.reverse] := by
  induction ws with
  | nil => intro acc; rfl
  | cons c t ih =>
    intro acc
    have hc : isPySpace c := h c (List.mem_cons_self _ _)
    have ht : ∀ d ∈ t, isPySpace d := fun d hd => h d (List.mem_cons_of_mem _ hd)
    by_cases hacc : acc.isEmpty <;>
      simp [pySplitAux, hc, hacc, ih ht]

/-- Appending trailing whitespace does not change `split()`. -/
theorem pySplitAux_append_spaces (ws : List Char) (h : ∀ c ∈ ws, isPySpace c) :
    ∀ (cs : List Char) (acc : List Char),
      pySplitAux (cs ++ ws) acc = pySplitAux cs acc := by
  intro cs
  induction cs with
  | nil =>
    intro acc
    rw [List.nil_append]
    exact pySplitAux_all_spaces ws h acc
  | cons c t ih =>
    intro acc
    by_cases hc : isPySpace c <;> by_cases hacc : acc.isEmpty <;>
      simp [pySplitAux, hc, hacc, ih]

/-- Dropping leading whitespace does not change `split()`. -/
theorem pySplitAux_dropWhile (cs : List Char) :
    pySplitAux (cs.dropWhile isPySpace) [] = pySplitAux cs [] := by
  induction cs with
  | nil => rfl
  | cons c t ih =>
    by_cases hc : isPySpace c <;>
      simp [List.dropWhile_cons, pySplitAux, hc, ih]

/-- Python's `line.split()` coincides with `line.strip().split()`. -/
theorem pySplit_strip (s : String) : pySplit (pyStrip s) = pySplit s := by
  have hdecomp : ∀ (l : List Char),
      (l.reverse.dropWhile isPySpace).reverse ++
        (l.reverse.takeWhile isPySpace).reverse = l := by
    intro l
    conv_rhs => rw [← List.reverse_reverse l,
      ← List.takeWhile_append_dropWhile isPySpace l.reverse]
    rw [List.reverse_append]
  have hws : ∀ c ∈ ((s.data.dropWhile isPySpace).reverse.takeWhile isPySpace).reverse,
      isPySpace c := by
    intro c hc
    exact List.mem_takeWhile_imp (List.mem_reverse.mp hc)
  unfold pySplit pyStrip
  calc pySplitAux (String.mk (((s.data.dropWhile isPySpace).reverse.dropWhile isPySpace).reverse)).data []
      = pySplitAux (((s.data.dropWhile isPySpace).reverse.dropWhile isPySpace).reverse) [] := rfl
    _ = pySplitAux (((s.data.dropWhile isPySpace).reverse.dropWhile isPySpace).reverse ++
          ((s.data.dropWhile isPySpace).reverse.takeWhile isPySpace).reverse) [] :=
        (pySplitAux_append_spaces _ hws _ _).symm
    _ = pySplitAux (s.data.dropWhile isPySpace) [] := by rw [hdecomp]
    _ = pySplitAux s.data [] := pySplitAux_dropWhile s.data

/-- Parsing a line is unaffected by stripping it first. -/
theorem parseLine_strip (s : String) : parseLine (pyStrip s) = parseLine s := by
  unfold parseLine
  rw [pySplit_strip]

/-- `coords` extraction distributes over concatenation of line lists. -/
theorem coordsOfLines_append (l₁ l₂ : List String) :
    coordsOfLines (l₁ ++ l₂) = coordsOfLines l₁ ++ coordsOfLines l₂ := by
  simp [coordsOfLines, List.filter_append, List.filterMap_append]

/-- `coords` of a single line: whatever its parse yields (stripping is
immaterial, and a line stripped to emptiness parses to nothing). -/
theorem coordsOfLines_singleton (l : String) :
    coordsOfLines [l] = (parseLine l).toList := by
  by_cases h : pyStrip l = ""
  · have hnone : parseLine l = none := by
      rw [← parseLine_strip, h]
      rfl
    simp [coordsOfLines, h, hnone]
  · have hp := parseLine_strip l
    cases hps : parseLine (pyStrip l) <;> rw [hps] at hp <;>
      simp [coordsOfLines, h, List.filterMap_cons, hps, ← hp]

/-- The render depends on the input lines only through the parsed
`coords` list. -/
theorem renderLines_congr {ls₁ ls₂ : List String}
    (h : coordsOfLines ls₁ = coordsOfLines ls₂) :
    renderLines ls₁ = renderLines ls₂ := by
  unfold renderLines
  rw [h]

/-! ### Permutation invariance machinery -/

/-- Two grids of equal height whose cells all agree are equal. -/
theorem grid_ext {g₁ g₂ : Grid} (hlen : g₁.length = g₂.length)
    (h : ∀ y x, getCell g₁ y x = getCell g₂ y x) : g₁ = g₂ := by
  apply List.ext_getElem?
  intro y
  by_cases hy : y < g₁.length
  · have hy₂ : y < g₂.length := hlen ▸ hy
    rw [List.getElem?_eq_getElem hy, List.getElem?_eq_getElem hy₂]
    congr 1
    apply List.ext_getElem?
    intro x
    have hc := h y x
    simp only [getCell, List.getElem?_eq_getElem hy,
      List.getElem?_eq_getElem hy₂] at hc
    exact hc
  · rw [List.getElem?_eq_none (by omega), List.getElem?_eq_none (by omega)]

/-- `find?` returns the unique element satisfying the predicate. -/
theorem find?_eq_some_of_unique {α : Type} {p : α → Bool} {l : List α} {a : α}
    (ha : a ∈ l) (hpa : p a = true)
    (huniq : ∀ b ∈ l, p b = true → b = a) :
    l.find? p = some a := by
  induction l with
  | nil => cases ha
  | cons x t ih =>
    by_cases hx : p x = true
    · have hxa : x = a := huniq x (List.mem_cons_self _ _) hx
      subst hxa
      simp [List.find?, hx]
    · have hxf : p x = false := Bool.not_eq_true _ ▸ (by simpa using hx)
      have hat : a ∈ t := by
        rcases List.mem_cons.mp ha with rfl | h
        · exact absurd hpa hx
        · exact h
      simp only [List.find?, hxf]
      exact ih hat (fun b hb => huniq b (List.mem_cons_of_mem _ hb))

/-- Under pairwise-distinct coordinates, the winning entry at each cell is
permutation-invariant. -/
theorem lastWriteAt_perm {cs₁ cs₂ : List Entry} (hperm : cs₁.Perm cs₂)
    (hdist : cs₁.Pairwise (fun a b => ¬(a.x = b.x ∧ a.y = b.y)))
    (x y : Int) : lastWriteAt cs₁ x y = lastWriteAt cs₂ x y := by
  have hsymm : Symmetric (fun a b : Entry => ¬(a.x = b.x ∧ a.y = b.y)) :=
    fun a b hab h => hab ⟨h.1.symm, h.2.symm⟩
  rcases hfind : lastWriteAt cs₁ x y with _ | e
  · rw [lastWriteAt, List.find?_eq_none] at hfind
    symm
    rw [lastWriteAt, List.find?_eq_none]
    intro b hb
    exact hfind b (List.mem_reverse.mpr (hperm.mem_iff.mpr (List.mem_reverse.mp hb)))
  · have hpe := List.find?_some hfind
    have hme : e ∈ cs₁ := List.mem_reverse.mp (List.mem_of_find?_eq_some hfind)
    symm
    rw [lastWriteAt]
    apply find?_eq_some_of_unique
      (List.mem_reverse.mpr (hperm.mem_iff.mp hme)) hpe
    intro b hb hpb
    have hbm : b ∈ cs₁ := hperm.mem_iff.mpr (List.mem_reverse.mp hb)
    by_contra hne
    have hR := (hdist.forall hsymm) hbm hme hne
    have h1 : b.x = x ∧ b.y = y := of_decide_eq_true hpb
    have h2 : e.x = x ∧ e.y = y := of_decide_eq_true hpe
    exact hR ⟨h1.1.trans h2.1.symm, h1.2.trans h2.2.symm⟩

/-- Permuting the input lines permutes the parsed entries. -/
theorem coordsOfLines_perm {ls₁ ls₂ : List String} (h : ls₁.Perm ls₂) :
    (coordsOfLines ls₁).Perm (coordsOfLines ls₂) :=
  List.Perm.filterMap parseLine (List.Perm.filter _ (List.Perm.map pyStrip h))

/-- Permutation invariance of the render under the claim's side
conditions: all parsed entries non-negative and no two entries sharing a
coordinate. -/
theorem renderLines_perm {ls₁ ls₂ : List String} (hl : ls₁.Perm ls₂)
    (hnn : ∀ e ∈ coordsOfLines ls₁, 0 ≤ e.x ∧ 0 ≤ e.y)
    (hdist : (coordsOfLines ls₁).Pairwise (fun a b => ¬(a.x = b.x ∧ a.y = b.y))) :
    renderLines ls₁ = renderLines ls₂ := by
  have hperm := coordsOfLines_perm hl
  by_cases hne : coordsOfLines ls₁ = []
  · have h₂ : coordsOfLines ls₂ = [] :=
      List.Perm.eq_nil (hne ▸ hperm).symm
    unfold renderLines
    rw [hne, h₂]
  · have hne₂ : coordsOfLines ls₂ ≠ [] :=
      fun h => hne (List.Perm.eq_nil (h ▸ hperm))
    have hnn₂ : ∀ e ∈ coordsOfLines ls₂, 0 ≤ e.x ∧ 0 ≤ e.y :=
      fun e he => hnn e (hperm.mem_iff.mpr he)
    obtain ⟨g₁, hfold₁, hrl₁, hlen₁, hrows₁, hcells₁⟩ :=
      renderLines_spec ls₁ _ rfl hne hnn
    obtain ⟨g₂, hfold₂, hrl₂, hlen₂, hrows₂, hcells₂⟩ :=
      renderLines_spec ls₂ _ rfl hne₂ hnn₂
    have hmx := maxX_perm hperm hne
    have hmy := maxY_perm hperm hne
    have hlen : g₁.length = g₂.length := by omega
    have hcells : ∀ y x, getCell g₁ y x = getCell g₂ y x := by
      intro y x
      rw [hcells₁ y x, hcells₂ y x, lastWriteAt_perm hperm hdist, hmx, hmy]
    rw [hrl₁, hrl₂, grid_ext hlen hcells]

/-- The parsed entries of a whole input text (the `coords` list the code
computes before rendering). -/
def coordsOfText (text : String) : List Entry :=
  coordsOfLines (pySplitlines text)

/-! ### The claims -/

/-- Claim C1: for the ten-line sample input (`H 0 0` … `D 4 1`), the
render returns exactly the string `"HELLO\nWORLD"`. -/
theorem spec_C1_sample_renders_hello_world :
    decode_secret_message_from_text _SAMPLE = .ok _SAMPLE_EXPECT ∧
      _SAMPLE_EXPECT = "HELLO\nWORLD" := by
  decide

/-- Claim C2 (refuted — code bug): the render is NOT total.  On the input
`"A -1 0"` the line parses (Python `int` accepts `-1`), `max_x` is `-1`,
so the single row has width `0`, and the write `grid[0][-1] = "A"` raises
`IndexError`, contradicting the spec's "no error conditions" contract. -/
theorem spec_C2_totality_fails_on_negative :
    coordsOfText "A -1 0" = [⟨"A", -1, 0⟩] ∧
      decode_secret_message_from_text "A -1 0" =
        .error "IndexError: list assignment index out of range" := by
  decide

/-- Claim C3 (counterexample): a line whose x parses negative is NOT
discarded: `"A -2 0"` parses, and dropping it changes the render of
`"A -2 0\nB 1 0"` from `"AB"` to `" B"` — the negative entry lands in
column `0` through Python's end-relative indexing. -/
theorem spec_C3_counterexample :
    parseLine "A -2 0" = some ⟨"A", -2, 0⟩ ∧
      decode_secret_message_from_text "A -2 0\nB 1 0" = .ok "AB" ∧
      decode_secret_message_from_text "B 1 0" = .ok " B" ∧
      ("AB" : String) ≠ " B" := by
  decide

/-- Claim C3 as amended: a line whose x or y token parses as a negative
integer is kept, not discarded: the parsed entry enters the `coords` list
at its position in input order (so it takes part in the max computations
and is written into the grid with Python's end-relative indexing, as the
conjoined concrete render shows). -/
theorem spec_C3_negative_entries_kept :
    (∀ (pre post : List String) (l : String) (e : Entry),
      parseLine l = some e → (e.x < 0 ∨ e.y < 0) →
      coordsOfLines (pre ++ l :: post) =
        coordsOfLines pre ++ e :: coordsOfLines post) ∧
      decode_secret_message_from_text "A -2 0\nB 1 0" = .ok "AB" := by
  constructor
  · intro pre post l e h _
    rw [show pre ++ l :: post = (pre ++ [l]) ++ post by simp,
      coordsOfLines_append, coordsOfLines_append, coordsOfLines_singleton, h]
    simp
  · decide

/-- Witness for C3's amended theorem at the concrete line `"A -2 0"`. -/
theorem spec_C3_negative_entries_kept_witness :
    coordsOfLines (["B 1 0"] ++ "A -2 0" :: []) =
      coordsOfLines ["B 1 0"] ++ (⟨"A", -2, 0⟩ : Entry) :: coordsOfLines [] :=
  spec_C3_negative_entries_kept.1 ["B 1 0"] [] "A -2 0" ⟨"A", -2, 0⟩
    (by decide) (Or.inl (by decide))

/-- Claim C4: a malformed line — not exactly 3 whitespace-separated
tokens, or a coordinate token on which `int` fails — is silently dropped
and the rest of the render is unaffected; in particular
`render("X 1 2 3\nA 0 0") = "A"` and `render("A x y\nB 0 0") = "B"`. -/
theorem spec_C4_malformed_lines_discarded :
    (∀ (pre post : List String) (l : String),
      parseLine l = none →
      renderLines (pre ++ l :: post) = renderLines (pre ++ post)) ∧
      decode_secret_message_from_text "X 1 2 3\nA 0 0" = .ok "A" ∧
      decode_secret_message_from_text "A x y\nB 0 0" = .ok "B" := by
  refine ⟨?_, by decide, by decide⟩
  intro pre post l h
  apply renderLines_congr
  rw [show pre ++ l :: post = (pre ++ [l]) ++ post by simp,
    coordsOfLines_append, coordsOfLines_append, coordsOfLines_singleton, h,
    coordsOfLines_append]
  simp

/-- Witness for C4 at the malformed line `"X 1 2 3"`. -/
theorem spec_C4_malformed_lines_discarded_witness :
    renderLines (["A 0 0"] ++ "X 1 2 3" :: ["B 1 0"]) =
      renderLines (["A 0 0"] ++ ["B 1 0"]) :=
  spec_C4_malformed_lines_discarded.1 ["A 0 0"] ["B 1 0"] "X 1 2 3" (by decide)

/-- Claim C5: whenever no line survives filtering as a valid entry — in
particular for the empty input and for inputs of blank or whitespace-only
lines — the render returns the empty string. -/
theorem spec_C5_no_entries_empty_string :
    (∀ text, coordsOfText text = [] →
      decode_secret_message_from_text text = .ok "") ∧
      (∀ text, (∀ l ∈ pySplitlines text, pyStrip l = "") →
        decode_secret_message_from_text text = .ok "") ∧
      decode_secret_message_from_text "" = .ok "" ∧
      decode_secret_message_from_text " \n\t \n  " = .ok "" := by
  have hgen : ∀ text, coordsOfText text = [] →
      decode_secret_message_from_text text = .ok "" := by
    intro text h
    have h' : coordsOfLines (pySplitlines text) = [] := h
    simp only [decode_secret_message_from_text, renderLines, h']
  refine ⟨hgen, ?_, by decide, by decide⟩
  intro text h
  apply hgen
  show coordsOfLines (pySplitlines text) = []
  unfold coordsOfLines
  have hf : ((pySplitlines text).map pyStrip).filter (fun l => l ≠ "") = [] := by
    rw [List.filter_eq_nil]
    intro a ha
    obtain ⟨l, hl, rfl⟩ := List.mem_map.mp ha
    simp [h l hl]
  rw [hf]
  rfl

/-- Witness for C5 at a one-line garbage input and a whitespace-only
input. -/
theorem spec_C5_no_entries_empty_string_witness :
    decode_secret_message_from_text "hello world" = .ok "" ∧
      decode_secret_message_from_text "\t\n \n" = .ok "" :=
  ⟨spec_C5_no_entries_empty_string.1 "hello world" (by decide),
    spec_C5_no_entries_empty_string.2.1 "\t\n \n" (by decide)⟩

/-- Claim C6 (counterexample): `"A 0 -1"` yields one valid (parsed)
entry, yet the render returns no string at all: `max_y = -1` makes
`range(max_y+1)` empty, and `grid[-1]` raises `IndexError`. -/
theorem spec_C6_counterexample :
    coordsOfText "A 0 -1" = [⟨"A", 0, -1⟩] ∧
      decode_secret_message_from_text "A 0 -1" =
        .error "IndexError: list index out of range" := by
  decide

/-- Claim C6 as amended: for every input with at least one valid entry
whose valid entries all have non-negative coordinates, the returned
string is the join of a grid of `max_y + 1` rows, each of `max_x + 1`
cells, and every cell no entry wrote holds the default single space; in
particular `render("Z 2 1")` is two rows, `"   "` and `"  Z"`. -/
theorem spec_C6_grid_dimensions :
    (∀ (text : String) (cs : List Entry), coordsOfText text = cs → cs ≠ [] →
      (∀ e ∈ cs, 0 ≤ e.x ∧ 0 ≤ e.y) →
      ∃ g : Grid, decode_secret_message_from_text text = .ok (joinGrid g) ∧
        ((g.length : Int) = maxY cs + 1) ∧
        (∀ row ∈ g, ((row.length : Int) = maxX cs + 1)) ∧
        (∀ y x : Nat, y < g.length → x < (maxX cs + 1).toNat →
          lastWriteAt cs (x : Int) (y : Int) = none →
          getCell g y x = some " ")) ∧
      decode_secret_message_from_text "Z 2 1" = .ok "   \n  Z" := by
  refine ⟨?_, by decide⟩
  intro text cs hcs hne hnn
  obtain ⟨g, hfold, hrl, hlen, hrows, hcells⟩ :=
    renderLines_spec (pySplitlines text) cs hcs hne hnn
  refine ⟨g, hrl, hlen, hrows, ?_⟩
  intro y x hy hx hnone
  have hc := hcells y x
  rw [hnone] at hc
  rw [hc, if_pos]
  exact ⟨by omega, hx⟩

/-- Witness for C6's amended theorem at the input `"Z 2 1"`. -/
theorem spec_C6_grid_dimensions_witness :
    ∃ g : Grid, decode_secret_message_from_text "Z 2 1" = .ok (joinGrid g) ∧
      ((g.length : Int) = maxY [(⟨"Z", 2, 1⟩ : Entry)] + 1) ∧
      (∀ row ∈ g, ((row.length : Int) = maxX [(⟨"Z", 2, 1⟩ : Entry)] + 1)) ∧
      (∀ y x : Nat, y < g.length →
        x < (maxX [(⟨"Z", 2, 1⟩ : Entry)] + 1).toNat →
        lastWriteAt [(⟨"Z", 2, 1⟩ : Entry)] (x : Int) (y : Int) = none →
        getCell g y x = some " ") :=
  spec_C6_grid_dimensions.1 "Z 2 1" [⟨"Z", 2, 1⟩]
    (by decide) (by decide) (by decide)

/-- Claim C7 (counterexample): last-write-wins at a shared `(x, y)` does
not hold on the raw code: in
`"A 0 0\nB 0 0\nZ -2 0\nQ 1 0"` the last entry at `(0, 0)` is `B`, yet
the later line `Z -2 0` wraps around (index `-2` of a width-2 row is
column 0) and overwrites it, rendering `"ZQ"`. -/
theorem spec_C7_counterexample :
    lastWriteAt (coordsOfText "A 0 0\nB 0 0\nZ -2 0\nQ 1 0") 0 0 =
        some ⟨"B", 0, 0⟩ ∧
      buildFold
          (initGrid (maxX (coordsOfText "A 0 0\nB 0 0\nZ -2 0\nQ 1 0"))
            (maxY (coordsOfText "A 0 0\nB 0 0\nZ -2 0\nQ 1 0")))
          (coordsOfText "A 0 0\nB 0 0\nZ -2 0\nQ 1 0") = .ok [["Z", "Q"]] ∧
      getCell [["Z", "Q"]] 0 0 = some "Z" ∧
      decode_secret_message_from_text "A 0 0\nB 0 0\nZ -2 0\nQ 1 0" =
        .ok "ZQ" ∧
      some "Z" ≠ some ("B" : String) := by
  decide

/-- Claim C7 as amended: provided every parsed entry has non-negative
coordinates, the cell at `(x, y)` in the rendered grid holds the
character of the last entry (in input order) with that coordinate; in
particular `render("A 0 0\nB 0 0") = "B"`. -/
theorem spec_C7_last_write_wins :
    (∀ (text : String) (cs : List Entry), coordsOfText text = cs → cs ≠ [] →
      (∀ e ∈ cs, 0 ≤ e.x ∧ 0 ≤ e.y) →
      ∀ (y x : Nat) (e : Entry), lastWriteAt cs (x : Int) (y : Int) = some e →
      ∃ g : Grid, decode_secret_message_from_text text = .ok (joinGrid g) ∧
        getCell g y x = some e.char) ∧
      decode_secret_message_from_text "A 0 0\nB 0 0" = .ok "B" := by
  refine ⟨?_, by decide⟩
  intro text cs hcs hne hnn y x e hlast
  obtain ⟨g, hfold, hrl, hlen, hrows, hcells⟩ :=
    renderLines_spec (pySplitlines text) cs hcs hne hnn
  refine ⟨g, hrl, ?_⟩
  have hc := hcells y x
  rw [hlast] at hc
  exact hc

/-- Witness for C7's amended theorem at `"A 0 0\nB 0 0"`. -/
theorem spec_C7_last_write_wins_witness :
    ∃ g : Grid, decode_secret_message_from_text "A 0 0\nB 0 0" =
        .ok (joinGrid g) ∧ getCell g 0 0 = some "B" :=
  spec_C7_last_write_wins.1 "A 0 0\nB 0 0" [⟨"A", 0, 0⟩, ⟨"B", 0, 0⟩]
    (by decide) (by decide) (by decide) 0 0 ⟨"B", 0, 0⟩ (by decide)

/-- Claim C8 (counterexample): a valid line with a multi-character token
need not appear in the output: a later entry at the same coordinate
(`"AB 0 0\nC 0 0"` renders `"C"`), or a later negative entry wrapping
onto the same cell (`"AB 0 0\nZ -1 0"` renders `"Z"`), overwrites it. -/
theorem spec_C8_counterexample :
    parseLine "AB 0 0" = some ⟨"AB", 0, 0⟩ ∧
      decode_secret_message_from_text "AB 0 0\nC 0 0" = .ok "C" ∧
      decode_secret_message_from_text "AB 0 0\nZ -1 0" = .ok "Z" := by
  decide

/-- Claim C8 as amended: a grid cell holds the writing entry's original
token string untruncated: provided every parsed entry is non-negative,
the last entry at `(x, y)` — even one whose token is longer than one
character — puts its whole token in that cell; in particular
`render("AB 0 0") = "AB"`. -/
theorem spec_C8_token_kept_whole :
    (∀ (text : String) (cs : List Entry), coordsOfText text = cs → cs ≠ [] →
      (∀ e ∈ cs, 0 ≤ e.x ∧ 0 ≤ e.y) →
      ∀ (y x : Nat) (e : Entry), lastWriteAt cs (x : Int) (y : Int) = some e →
      1 < e.char.length →
      ∃ g : Grid, decode_secret_message_from_text text = .ok (joinGrid g) ∧
        getCell g y x = some e.char) ∧
      decode_secret_message_from_text "AB 0 0" = .ok "AB" := by
  refine ⟨?_, by decide⟩
  intro text cs hcs hne hnn y x e hlast _
  obtain ⟨g, hfold, hrl, hlen, hrows, hcells⟩ :=
    renderLines_spec (pySplitlines text) cs hcs hne hnn
  refine ⟨g, hrl, ?_⟩
  have hc := hcells y x
  rw [hlast] at hc
  exact hc

/-- Witness for C8's amended theorem at `"AB 0 0"`. -/
theorem spec_C8_token_kept_whole_witness :
    ∃ g : Grid, decode_secret_message_from_text "AB 0 0" =
        .ok (joinGrid g) ∧ getCell g 0 0 = some "AB" :=
  spec_C8_token_kept_whole.1 "AB 0 0" [⟨"AB", 0, 0⟩]
    (by decide) (by decide) (by decide) 0 0 ⟨"AB", 0, 0⟩ (by decide) (by decide)

/-- Claim C9: rendering is not a round-trip: the sample renders to
`"HELLO\nWORLD"`, whose lines contain no 3-token coordinate entries, so a
second application of the render yields `""`, not the grid again. -/
theorem spec_C9_not_a_roundtrip :
    decode_secret_message_from_text _SAMPLE = .ok "HELLO\nWORLD" ∧
      decode_secret_message_from_text "HELLO\nWORLD" = .ok "" ∧
      ("" : String) ≠ "HELLO\nWORLD" := by
  decide

/-- Claim C10: when all parsed entries have non-negative coordinates and
pairwise-distinct `(x, y)` pairs, permuting the input lines leaves the
render's output unchanged. -/
theorem spec_C10_permutation_invariance :
    ∀ (ls₁ ls₂ : List String), ls₁.Perm ls₂ →
      (∀ e ∈ coordsOfLines ls₁, 0 ≤ e.x ∧ 0 ≤ e.y) →
      (coordsOfLines ls₁).Pairwise (fun a b => ¬(a.x = b.x ∧ a.y = b.y)) →
      renderLines ls₁ = renderLines ls₂ :=
  fun _ _ hl hnn hdist => renderLines_perm hl hnn hdist

/-- Witness for C10: swapping the two lines of `"A 0 0"`, `"B 1 0"`. -/
theorem spec_C10_permutation_invariance_witness :
    renderLines ["B 1 0", "A 0 0"] = renderLines ["A 0 0", "B 1 0"] :=
  spec_C10_permutation_invariance ["B 1 0", "A 0 0"] ["A 0 0", "B 1 0"]
    (List.Perm.swap "A 0 0" "B 1 0" []) (by decide) (by decide)
